import Mathlib

/-!
Verification of the orbital-frontend core: the Kepler solver of
`src/Scene3D.jsx` and the rollout analytics engine (`useRollout`) of
`src/App.jsx`, shallowly embedded over the reals.
-/

namespace Orbital

/-! ## Kepler solver (src/Scene3D.jsx) -/

/-- One Newton–Raphson update of the root-find for `E − e·sin E − M = 0`,
the body of the `for` loop in `keplerE`: `E -= f / fp`. -/
noncomputable def keplerStep (M e E : ℝ) : ℝ :=
  E - (E - e * Real.sin E - M) / (1 - e * Real.cos E)

/-- The state of the variable `E` in `keplerE` after `n` passes of the loop;
`E` is initialised to `M`. -/
noncomputable def keplerLoop (M e : ℝ) : ℕ → ℝ
  | 0 => M
  | n + 1 => keplerStep M e (keplerLoop M e n)

/-- `keplerE(M, e)` from `src/Scene3D.jsx`: the loop runs for `k < 8`. -/
noncomputable def keplerE (M e : ℝ) : ℝ := keplerLoop M e 8

/-- The visualization eccentricity computed in `Planets`:
`Math.min(p.e * eccScale, 0.9)`. -/
noncomputable def eVis (e eccScale : ℝ) : ℝ := min (e * eccScale) 0.9

/-- The gravitational parameter hard-coded in `Planets` (AU³/day²). -/
noncomputable def muPlanets : ℝ := 0.0002959122082855911

/-- Degrees-to-radians factor `rad = Math.PI / 180` from `Planets`. -/
noncomputable def radPerDeg : ℝ := Real.pi / 180

/-- Truncation toward zero, the quotient used by the JavaScript `%`
operator on finite operands. -/
noncomputable def jsTrunc (x : ℝ) : ℤ :=
  if 0 ≤ x then ⌊x⌋ else ⌈x⌉

/-- The JavaScript remainder operator `x % y`: `x − y·trunc(x / y)`.
Its result takes the sign of the dividend `x`. -/
noncomputable def jsMod (x y : ℝ) : ℝ := x - y * (jsTrunc (x / y) : ℝ)

/-- The mean anomaly computed in `Planets`:
`M = (p.M0 * rad + n * tDays) % (2 * Math.PI)` with
`n = Math.sqrt(mu / Math.pow(p.a, 3))`. -/
noncomputable def meanAnomalyAt (mu a M0deg tDays : ℝ) : ℝ :=
  jsMod (M0deg * radPerDeg + Real.sqrt (mu / a ^ 3) * tDays) (2 * Real.pi)

lemma keplerLoop_eq_iterate (M e : ℝ) (n : ℕ) :
    keplerLoop M e n = (fun E => keplerStep M e E)^[n] M := by
  induction n with
  | zero => rfl
  | succ n ih =>
      rw [keplerLoop, ih, Function.iterate_succ_apply']

lemma jsMod_nonneg_eq (x y : ℝ) (hx : 0 ≤ x) (hy : 0 < y) :
    jsMod x y = x - y * (⌊x / y⌋ : ℝ) ∧ 0 ≤ jsMod x y ∧ jsMod x y < y := by
  have hq : (0 : ℝ) ≤ x / y := div_nonneg hx hy.le
  have htr : jsTrunc (x / y) = ⌊x / y⌋ := by
    unfold jsTrunc
    exact if_pos hq
  have hmod : jsMod x y = y * Int.fract (x / y) := by
    unfold jsMod
    rw [htr, Int.fract]
    field_simp
  refine ⟨by unfold jsMod; rw [htr], ?_, ?_⟩
  · rw [hmod]
    exact mul_nonneg hy.le (Int.fract_nonneg _)
  · rw [hmod]
    calc y * Int.fract (x / y) < y * 1 :=
          (mul_lt_mul_left hy).mpr (Int.fract_lt_one _)
    _ = y := mul_one y

/-- C8: `keplerE(M, e)` performs exactly 8 Newton–Raphson iterations of the
root-find for `E − e·sin E − M = 0`, starting from the seed `E₀ = M`, with a
fixed iteration budget independent of the inputs: the loop state after `n`
passes is the `n`-fold iterate of the Newton step applied to `M`, and
`keplerE` is exactly the 8-fold iterate. -/
theorem keplerE_fixed_budget (M e : ℝ) :
    keplerE M e = (fun E => keplerStep M e E)^[8] M ∧
    (∀ n : ℕ, keplerLoop M e n = (fun E => keplerStep M e E)^[n] M) ∧
    keplerLoop M e 0 = M := by
  refine ⟨?_, fun n => keplerLoop_eq_iterate M e n, rfl⟩
  rw [keplerE, keplerLoop_eq_iterate]

/-- C9: for every `e ∈ [0, 1)` and every mean anomaly `M`, the Newton
denominator `1 − e·cos E` evaluated at any loop state of `keplerE` is bounded
below by `1 − e > 0`, hence is nonzero: the division in the update step never
divides by zero. -/
theorem keplerE_denominator_pos (e M : ℝ) (k : ℕ) (he0 : 0 ≤ e) (he1 : e < 1) :
    0 < 1 - e ∧ 1 - e ≤ 1 - e * Real.cos (keplerLoop M e k) ∧
    1 - e * Real.cos (keplerLoop M e k) ≠ 0 := by
  have h1 : (0 : ℝ) < 1 - e := by linarith
  have h2 : e * Real.cos (keplerLoop M e k) ≤ e * 1 :=
    mul_le_mul_of_nonneg_left (Real.cos_le_one _) he0
  have h3 : 1 - e ≤ 1 - e * Real.cos (keplerLoop M e k) := by
    have := h2
    rw [mul_one] at this
    linarith
  exact ⟨h1, h3, ne_of_gt (lt_of_lt_of_le h1 h3)⟩

theorem keplerE_denominator_pos_witness :
    0 < 1 - (1/2 : ℝ) ∧
    1 - (1/2 : ℝ) ≤ 1 - (1/2) * Real.cos (keplerLoop 0 (1/2) 0) ∧
    1 - (1/2 : ℝ) * Real.cos (keplerLoop 0 (1/2) 0) ≠ 0 :=
  keplerE_denominator_pos (1/2) 0 0 (by norm_num) (by norm_num)

/-- C7 counterexample: the visualization eccentricity is not clamped
*strictly* below 0.9: at `e = 0.9`, `eccScale = 1` the value passed to the
solver is exactly `0.9`. -/
theorem eVis_not_strictly_below :
    eVis 0.9 1 = 0.9 ∧ ¬ eVis 0.9 1 < 0.9 := by
  constructor
  · unfold eVis
    norm_num
  · unfold eVis
    norm_num

/-- C7 (amended): the visualization eccentricity passed into the solver is
`min (e·scale) 0.9`, so it equals `e·scale` when that is at most 0.9 and is
clamped to exactly `0.9` (not strictly below it) otherwise; the solver
`keplerE` itself applies no clamping — it runs the fixed 8-step loop on the
eccentricity it is given, unmodified, for every `e`. -/
theorem eVis_clamped_at_most (e eccScale : ℝ) (he : e * eccScale ≤ 0.9) :
    eVis e eccScale = e * eccScale ∧
    (∀ e' s' : ℝ, 0.9 ≤ e' * s' → eVis e' s' = 0.9) ∧
    (∀ e' s' : ℝ, eVis e' s' ≤ 0.9) ∧
    (∀ M e' : ℝ, keplerE M e' = keplerLoop M e' 8) := by
  refine ⟨min_eq_left he, fun e' s' h => min_eq_right h, fun e' s' => min_le_right _ _,
    fun M e' => rfl⟩

theorem eVis_clamped_at_most_witness :
    eVis 0.5 1 = 0.5 * 1 :=
  (eVis_clamped_at_most 0.5 1 (by norm_num)).1

lemma meanAnomalyAt_neg_example :
    meanAnomalyAt muPlanets 1 (-180) 0 = -Real.pi := by
  have hx : (-180 : ℝ) * radPerDeg + Real.sqrt (muPlanets / 1 ^ 3) * 0 = -Real.pi := by
    rw [mul_zero, add_zero, radPerDeg]
    ring
  unfold meanAnomalyAt
  rw [hx]
  have hdiv : -Real.pi / (2 * Real.pi) = -(1 / 2 : ℝ) := by
    rw [div_eq_iff (by positivity : (2 : ℝ) * Real.pi ≠ 0)]
    ring
  have htr : jsTrunc (-Real.pi / (2 * Real.pi)) = 0 := by
    rw [hdiv]
    unfold jsTrunc
    rw [if_neg (by norm_num)]
    norm_num
  unfold jsMod
  rw [htr]
  push_cast
  ring

/-- C6 counterexample: for the record `a = 1`, `M0 = −180°` (that is, mean
anomaly `−π` radians) at `t = 0`, the computed mean anomaly is `−π`, which
does not lie in `[0, 2π)` — the JavaScript `%` keeps the dividend's sign
instead of wrapping into `[0, 2π)`. -/
theorem meanAnomalyAt_not_wrapped :
    meanAnomalyAt muPlanets 1 (-180) 0 = -Real.pi ∧
    ¬ 0 ≤ meanAnomalyAt muPlanets 1 (-180) 0 := by
  refine ⟨meanAnomalyAt_neg_example, ?_⟩
  rw [meanAnomalyAt_neg_example]
  simp [Real.pi_pos.le]
  exact Real.pi_pos

/-- C6 (amended): for every `mu > 0`, `a > 0`, `M0` and `t`, whenever the
unwrapped phase `M0·(π/180) + √(mu/a³)·t` is nonnegative, the computed mean
anomaly equals that phase reduced modulo `2π` (subtracting `2π·⌊phase/2π⌋`)
and lies in `[0, 2π)`; for a negative phase the JavaScript `%` instead
returns a value in `(−2π, 0]`. -/
theorem meanAnomalyAt_wrapped_of_nonneg (mu a M0deg tDays : ℝ)
    (_hmu : 0 < mu) (_ha : 0 < a)
    (hphase : 0 ≤ M0deg * radPerDeg + Real.sqrt (mu / a ^ 3) * tDays) :
    meanAnomalyAt mu a M0deg tDays =
      (M0deg * radPerDeg + Real.sqrt (mu / a ^ 3) * tDays) -
        2 * Real.pi *
          (⌊(M0deg * radPerDeg + Real.sqrt (mu / a ^ 3) * tDays) / (2 * Real.pi)⌋ : ℝ) ∧
    0 ≤ meanAnomalyAt mu a M0deg tDays ∧
    meanAnomalyAt mu a M0deg tDays < 2 * Real.pi := by
  have h2pi : (0 : ℝ) < 2 * Real.pi := by positivity
  have h := jsMod_nonneg_eq _ _ hphase h2pi
  exact ⟨h.1, h.2.1, h.2.2⟩

theorem meanAnomalyAt_wrapped_of_nonneg_witness :
    meanAnomalyAt 1 1 0 0 =
      ((0 : ℝ) * radPerDeg + Real.sqrt (1 / 1 ^ 3) * 0) -
        2 * Real.pi *
          (⌊((0 : ℝ) * radPerDeg + Real.sqrt (1 / 1 ^ 3) * 0) / (2 * Real.pi)⌋ : ℝ) ∧
    0 ≤ meanAnomalyAt 1 1 0 0 ∧ meanAnomalyAt 1 1 0 0 < 2 * Real.pi :=
  meanAnomalyAt_wrapped_of_nonneg 1 1 0 0 (by norm_num) (by norm_num)
    (by rw [zero_mul, mul_zero, add_zero])

/-! ## Rollout analytics engine (src/App.jsx, `useRollout`) -/

/-- A rollout frame record: position `r`, velocity `v`, optional `thrust`,
optional `reward`, optionally precomputed `pos_err` / `v_tan_err`. -/
structure Frame where
  r : ℝ × ℝ × ℝ
  v : ℝ × ℝ × ℝ
  thrust : Option (ℝ × ℝ × ℝ)
  reward : Option ℝ
  pos_err : Option ℝ
  v_tan_err : Option ℝ

/-- `Math.hypot(x, y, z)`: the Euclidean magnitude of a 3-vector. -/
noncomputable def hypot3 (u : ℝ × ℝ × ℝ) : ℝ :=
  Real.sqrt (u.1 * u.1 + u.2.1 * u.2.1 + u.2.2 * u.2.2)

/-- The record returned by `stationKeepingErrors`. -/
structure SKErr where
  rmag : ℝ
  pos_err : ℝ
  v_rad : ℝ
  v_tan : ℝ
  v_tan_err : ℝ
  v_circ : ℝ

/-- `stationKeepingErrors(frame, R0)` from `src/App.jsx` (the non-null
frame case): unit radial direction guarded by `1e-9`, radial velocity,
tangential speed clamped at zero, circular reference velocity with
`mu = 1.0`. -/
noncomputable def stationKeepingErrors (f : Frame) (R0 : ℝ) : SKErr :=
  let r := f.r
  let v := f.v
  let rmag := hypot3 r
  let r_hat : ℝ × ℝ × ℝ :=
    (r.1 / (rmag + 1e-9), r.2.1 / (rmag + 1e-9), r.2.2 / (rmag + 1e-9))
  let v_rad := v.1 * r_hat.1 + v.2.1 * r_hat.2.1 + v.2.2 * r_hat.2.2
  let vmag := hypot3 v
  let v_tan := Real.sqrt (max 0 (vmag * vmag - v_rad * v_rad))
  let mu : ℝ := 1.0
  let v_circ := Real.sqrt (mu / max 1e-9 R0)
  { rmag := rmag, pos_err := rmag - R0, v_rad := v_rad, v_tan := v_tan,
    v_tan_err := v_tan - v_circ, v_circ := v_circ }

/-- `const thr = f.thrust ? Math.hypot(...f.thrust) : 0`. -/
noncomputable def frameThr (f : Frame) : ℝ :=
  match f.thrust with
  | some u => hypot3 u
  | none => 0

/-- `const posErr = f.pos_err ?? (Math.hypot(...f.r) - 1.0)`. -/
noncomputable def framePosErr (f : Frame) : ℝ :=
  f.pos_err.getD (hypot3 f.r - 1.0)

/-- `const vtanErr = f.v_tan_err ?? stationKeepingErrors(f, 1.0).v_tan_err`
(the frame is non-null inside the loop, so the inner `?? 0` fallback of the
original never fires). -/
noncomputable def frameVtanErr (f : Frame) : ℝ :=
  f.v_tan_err.getD ((stationKeepingErrors f 1.0).v_tan_err)

/-- `const inTol = posErr <= tolR && Math.abs(vtanErr) <= tolV`. -/
def frameInTol (tolR tolV : ℝ) (f : Frame) : Prop :=
  framePosErr f ≤ tolR ∧ |frameVtanErr f| ≤ tolV

noncomputable instance (tolR tolV : ℝ) (f : Frame) :
    Decidable (frameInTol tolR tolV f) :=
  inferInstanceAs (Decidable (framePosErr f ≤ tolR ∧ |frameVtanErr f| ≤ tolV))

/-- The `type` tag of a timeline event. -/
inductive EventKind
  | thrust
  | entered_tol
deriving DecidableEq

/-- A timeline event `{t, type}` pushed onto `events`. -/
structure Event where
  t : ℤ
  type : EventKind
deriving DecidableEq

/-- The per-frame `spark` series (`{x: idx, y: value}` points). -/
structure Spark where
  reward : List (ℕ × ℝ)
  fuel : List (ℕ × ℝ)
  posErr : List (ℕ × ℝ)
  vTanErr : List (ℕ × ℝ)

/-- One frame's four `spark.….push({x: idx, y: …})` calls. -/
def pushSpark (sp : Spark) (idx : ℕ) (rwv th pe ve : ℝ) : Spark :=
  { reward := sp.reward ++ [(idx, rwv)], fuel := sp.fuel ++ [(idx, th)],
    posErr := sp.posErr ++ [(idx, pe)], vTanErr := sp.vTanErr ++ [(idx, ve)] }

/-- The mutable accumulator state of the `frames.forEach` pass. -/
structure EpState where
  rewardSum : ℝ
  fuelSum : ℝ
  capturedAt : Option ℤ
  inTolCount : ℕ
  events : List Event
  tolStreak : ℕ
  seenOut : Bool
  spark : Spark

/-- The body of `frames.forEach((f, idx) => …)` in `useRollout`:
accumulate reward and fuel, push a thrust event on a spike, classify the
frame, and run the debounced capture logic (`tolStreak`, `seenOut`,
`capturedAt`, `entered_tol` event). -/
noncomputable def stepFrame (tolR tolV thrustSpike : ℝ) (K : ℕ)
    (s : EpState) (f : Frame) (idx : ℕ) : EpState :=
  let thr := frameThr f
  let posErr := framePosErr f
  let vtanErr := frameVtanErr f
  let rewardSum := s.rewardSum + f.reward.getD 0
  let fuelSum := s.fuelSum + thr
  let events :=
    if thr > thrustSpike then s.events ++ [⟨(idx : ℤ), EventKind.thrust⟩]
    else s.events
  let sp := pushSpark s.spark idx (f.reward.getD 0) thr posErr vtanErr
  if frameInTol tolR tolV f then
    let tolStreak := s.tolStreak + 1
    if s.seenOut = true ∧ s.capturedAt = none ∧ K ≤ tolStreak then
      { rewardSum := rewardSum, fuelSum := fuelSum,
        capturedAt := some ((idx : ℤ) - K + 1),
        inTolCount := s.inTolCount + 1,
        events := events ++ [⟨(idx : ℤ) - K + 1, EventKind.entered_tol⟩],
        tolStreak := tolStreak, seenOut := s.seenOut, spark := sp }
    else
      { rewardSum := rewardSum, fuelSum := fuelSum, capturedAt := s.capturedAt,
        inTolCount := s.inTolCount + 1, events := events,
        tolStreak := tolStreak, seenOut := s.seenOut, spark := sp }
  else
    { rewardSum := rewardSum, fuelSum := fuelSum, capturedAt := s.capturedAt,
      inTolCount := s.inTolCount, events := events,
      tolStreak := 0, seenOut := true, spark := sp }

/-- The whole `frames.forEach` pass, threading the accumulator state over a
frame list starting at index `idx`. -/
noncomputable def runFrames (tolR tolV thrustSpike : ℝ) (K : ℕ) :
    ℕ → EpState → List Frame → EpState
  | _, s, [] => s
  | idx, s, f :: fs =>
      runFrames tolR tolV thrustSpike K (idx + 1)
        (stepFrame tolR tolV thrustSpike K s f idx) fs

/-- The accumulator's initial values in `useRollout`. -/
noncomputable def initState : EpState :=
  { rewardSum := 0, fuelSum := 0, capturedAt := none, inTolCount := 0,
    events := [], tolStreak := 0, seenOut := false,
    spark := { reward := [], fuel := [], posErr := [], vTanErr := [] } }

/-- The per-episode summary record returned by the `eps.map` closure. -/
structure EpisodeMetrics where
  rewardSum : ℝ
  fuelSum : ℝ
  capturedAt : Option ℤ
  events : List Event
  len : ℕ
  pctInTol : ℝ
  spark : Spark

/-- One episode's metrics: the `eps.map((frames) => …)` closure of
`useRollout`, with the debounce window hard-coded to `K = 30` and
`pctInTol = len > 0 ? inTolCount / len : 0`. -/
noncomputable def episodeMetrics (tolR tolV thrustSpike : ℝ)
    (frames : List Frame) : EpisodeMetrics :=
  let s := runFrames tolR tolV thrustSpike 30 0 initState frames
  { rewardSum := s.rewardSum, fuelSum := s.fuelSum, capturedAt := s.capturedAt,
    events := s.events, len := frames.length,
    pctInTol :=
      if 0 < frames.length then (s.inTolCount : ℝ) / (frames.length : ℝ)
      else 0,
    spark := s.spark }

/-- The batch entry point: `useRollout` maps the per-episode computation
over all episodes of a rollout. -/
noncomputable def rolloutMetrics (tolR tolV thrustSpike : ℝ)
    (eps : List (List Frame)) : List EpisodeMetrics :=
  eps.map (episodeMetrics tolR tolV thrustSpike)

/-! ### Field-wise characterisation of one forEach step -/

lemma stepFrame_rewardSum (tolR tolV ts : ℝ) (K : ℕ) (s : EpState)
    (f : Frame) (idx : ℕ) :
    (stepFrame tolR tolV ts K s f idx).rewardSum = s.rewardSum + f.reward.getD 0 := by
  by_cases h1 : frameInTol tolR tolV f <;>
    by_cases h2 : s.seenOut = true ∧ s.capturedAt = none ∧ K ≤ s.tolStreak + 1 <;>
    simp [stepFrame, h1, h2]

lemma stepFrame_fuelSum (tolR tolV ts : ℝ) (K : ℕ) (s : EpState)
    (f : Frame) (idx : ℕ) :
    (stepFrame tolR tolV ts K s f idx).fuelSum = s.fuelSum + frameThr f := by
  by_cases h1 : frameInTol tolR tolV f <;>
    by_cases h2 : s.seenOut = true ∧ s.capturedAt = none ∧ K ≤ s.tolStreak + 1 <;>
    simp [stepFrame, h1, h2]

lemma stepFrame_capturedAt (tolR tolV ts : ℝ) (K : ℕ) (s : EpState)
    (f : Frame) (idx : ℕ) :
    (stepFrame tolR tolV ts K s f idx).capturedAt =
      if frameInTol tolR tolV f ∧ s.seenOut = true ∧ s.capturedAt = none ∧
          K ≤ s.tolStreak + 1
      then some ((idx : ℤ) - K + 1) else s.capturedAt := by
  by_cases h1 : frameInTol tolR tolV f <;>
    by_cases h2 : s.seenOut = true ∧ s.capturedAt = none ∧ K ≤ s.tolStreak + 1 <;>
    simp [stepFrame, h1, h2]

lemma stepFrame_events (tolR tolV ts : ℝ) (K : ℕ) (s : EpState)
    (f : Frame) (idx : ℕ) :
    (stepFrame tolR tolV ts K s f idx).events =
      (if frameThr f > ts then s.events ++ [⟨(idx : ℤ), EventKind.thrust⟩]
       else s.events) ++
      (if frameInTol tolR tolV f ∧ s.seenOut = true ∧ s.capturedAt = none ∧
          K ≤ s.tolStreak + 1
       then [⟨(idx : ℤ) - K + 1, EventKind.entered_tol⟩] else []) := by
  by_cases h1 : frameInTol tolR tolV f <;>
    by_cases h2 : s.seenOut = true ∧ s.capturedAt = none ∧ K ≤ s.tolStreak + 1 <;>
    simp [stepFrame, h1, h2]

lemma stepFrame_inTolCount (tolR tolV ts : ℝ) (K : ℕ) (s : EpState)
    (f : Frame) (idx : ℕ) :
    (stepFrame tolR tolV ts K s f idx).inTolCount =
      if frameInTol tolR tolV f then s.inTolCount + 1 else s.inTolCount := by
  by_cases h1 : frameInTol tolR tolV f <;>
    by_cases h2 : s.seenOut = true ∧ s.capturedAt = none ∧ K ≤ s.tolStreak + 1 <;>
    simp [stepFrame, h1, h2]

lemma stepFrame_tolStreak (tolR tolV ts : ℝ) (K : ℕ) (s : EpState)
    (f : Frame) (idx : ℕ) :
    (stepFrame tolR tolV ts K s f idx).tolStreak =
      if frameInTol tolR tolV f then s.tolStreak + 1 else 0 := by
  by_cases h1 : frameInTol tolR tolV f <;>
    by_cases h2 : s.seenOut = true ∧ s.capturedAt = none ∧ K ≤ s.tolStreak + 1 <;>
    simp [stepFrame, h1, h2]

lemma stepFrame_seenOut (tolR tolV ts : ℝ) (K : ℕ) (s : EpState)
    (f : Frame) (idx : ℕ) :
    (stepFrame tolR tolV ts K s f idx).seenOut =
      if frameInTol tolR tolV f then s.seenOut else true := by
  by_cases h1 : frameInTol tolR tolV f <;>
    by_cases h2 : s.seenOut = true ∧ s.capturedAt = none ∧ K ≤ s.tolStreak + 1 <;>
    simp [stepFrame, h1, h2]

/-! ### Concrete test frames -/

lemma hypot3_single (x : ℝ) (hx : 0 ≤ x) : hypot3 (x, 0, 0) = x := by
  have h : hypot3 (x, 0, 0) = Real.sqrt (x * x + 0 * 0 + 0 * 0) := rfl
  rw [h, show x * x + 0 * 0 + 0 * 0 = x ^ 2 by ring]
  exact Real.sqrt_sq hx

/-- A frame that is out of tolerance (precomputed `pos_err = 1`), with no
thrust and no reward. -/
noncomputable def outF : Frame :=
  { r := (0, 0, 0), v := (0, 0, 0), thrust := none, reward := none,
    pos_err := some 1, v_tan_err := some 0 }

/-- A frame that is in tolerance (precomputed `pos_err = 0`,
`v_tan_err = 0`), with no thrust and no reward. -/
noncomputable def inF : Frame :=
  { r := (0, 0, 0), v := (0, 0, 0), thrust := none, reward := none,
    pos_err := some 0, v_tan_err := some 0 }

/-- An in-tolerance frame carrying a thrust spike `(0.03, 0, 0)`. -/
noncomputable def inThrustF : Frame :=
  { r := (0, 0, 0), v := (0, 0, 0), thrust := some (0.03, 0, 0), reward := none,
    pos_err := some 0, v_tan_err := some 0 }

lemma frameThr_outF : frameThr outF = 0 := by
  simp [frameThr, outF]

lemma frameThr_inF : frameThr inF = 0 := by
  simp [frameThr, inF]

lemma frameThr_inThrustF : frameThr inThrustF = 0.03 := by
  simp only [frameThr, inThrustF]
  exact hypot3_single 0.03 (by norm_num)

lemma frameInTol_outF : ¬ frameInTol 0.05 0.05 outF := by
  simp only [frameInTol, framePosErr, frameVtanErr, outF, Option.getD_some]
  norm_num

lemma frameInTol_inF : frameInTol 0.05 0.05 inF := by
  simp only [frameInTol, framePosErr, frameVtanErr, inF, Option.getD_some]
  norm_num

lemma frameInTol_inThrustF : frameInTol 0.05 0.05 inThrustF := by
  simp only [frameInTol, framePosErr, frameVtanErr, inThrustF, Option.getD_some]
  norm_num

/-! ### Behaviour of the pass over blocks of frames -/

lemma runFrames_append (tolR tolV ts : ℝ) (K : ℕ) :
    ∀ (l1 l2 : List Frame) (idx : ℕ) (s : EpState),
      runFrames tolR tolV ts K idx s (l1 ++ l2) =
        runFrames tolR tolV ts K (idx + l1.length)
          (runFrames tolR tolV ts K idx s l1) l2 := by
  intro l1
  induction l1 with
  | nil => intro l2 idx s; simp [runFrames]
  | cons f fs ih =>
      intro l2 idx s
      simp only [List.cons_append, runFrames, List.length_cons]
      rw [show fs.append l2 = fs ++ l2 from rfl, ih]
      have e : idx + (fs.length + 1) = idx + 1 + fs.length := by omega
      rw [e]

lemma runFrames_capturedAt_perm (tolR tolV ts : ℝ) (K : ℕ) :
    ∀ (fs : List Frame) (idx : ℕ) (s : EpState) (c : ℤ), s.capturedAt = some c →
      (runFrames tolR tolV ts K idx s fs).capturedAt = some c := by
  intro fs
  induction fs with
  | nil => intro idx s c h; simpa [runFrames] using h
  | cons f fs ih =>
      intro idx s c h
      simp only [runFrames]
      apply ih
      rw [stepFrame_capturedAt, h]
      simp

lemma run_outF (m : ℕ) : ∀ (idx : ℕ) (s : EpState),
    (runFrames 0.05 0.05 0.02 30 idx s (List.replicate m outF)).capturedAt =
      s.capturedAt ∧
    (runFrames 0.05 0.05 0.02 30 idx s (List.replicate m outF)).events = s.events ∧
    (runFrames 0.05 0.05 0.02 30 idx s (List.replicate m outF)).inTolCount =
      s.inTolCount ∧
    (runFrames 0.05 0.05 0.02 30 idx s (List.replicate m outF)).tolStreak =
      (if m = 0 then s.tolStreak else 0) ∧
    (runFrames 0.05 0.05 0.02 30 idx s (List.replicate m outF)).seenOut =
      (if m = 0 then s.seenOut else true) := by
  induction m with
  | zero => intro idx s; simp [runFrames]
  | succ m ih =>
      intro idx s
      rw [List.replicate_succ]
      simp only [runFrames]
      obtain ⟨h1, h2, h3, h4, h5⟩ := ih (idx + 1) (stepFrame 0.05 0.05 0.02 30 s outF idx)
      refine ⟨?_, ?_, ?_, ?_, ?_⟩
      · rw [h1, stepFrame_capturedAt]
        simp [frameInTol_outF]
      · rw [h2, stepFrame_events, frameThr_outF,
          if_neg (by norm_num : ¬ (0 : ℝ) > 0.02)]
        simp [frameInTol_outF]
      · rw [h3, stepFrame_inTolCount]
        simp [frameInTol_outF]
      · rw [h4, stepFrame_tolStreak]
        simp [frameInTol_outF]
      · rw [h5, stepFrame_seenOut]
        simp [frameInTol_outF]

lemma run_inF_neverOut (m : ℕ) : ∀ (idx : ℕ) (s : EpState), s.seenOut = false →
    (runFrames 0.05 0.05 0.02 30 idx s (List.replicate m inF)).capturedAt =
      s.capturedAt ∧
    (runFrames 0.05 0.05 0.02 30 idx s (List.replicate m inF)).events = s.events ∧
    (runFrames 0.05 0.05 0.02 30 idx s (List.replicate m inF)).inTolCount =
      s.inTolCount + m ∧
    (runFrames 0.05 0.05 0.02 30 idx s (List.replicate m inF)).tolStreak =
      s.tolStreak + m ∧
    (runFrames 0.05 0.05 0.02 30 idx s (List.replicate m inF)).seenOut = false := by
  induction m with
  | zero => intro idx s h; simp [runFrames, h]
  | succ m ih =>
      intro idx s h
      rw [List.replicate_succ]
      simp only [runFrames]
      obtain ⟨h1, h2, h3, h4, h5⟩ :=
        ih (idx + 1) (stepFrame 0.05 0.05 0.02 30 s inF idx)
          (by rw [stepFrame_seenOut]; simp [frameInTol_inF, h])
      refine ⟨?_, ?_, ?_, ?_, h5⟩
      · rw [h1, stepFrame_capturedAt]
        simp [h]
      · rw [h2, stepFrame_events, frameThr_inF,
          if_neg (by norm_num : ¬ (0 : ℝ) > 0.02)]
        simp [h]
      · rw [h3, stepFrame_inTolCount]
        simp [frameInTol_inF]
        omega
      · rw [h4, stepFrame_tolStreak]
        simp [frameInTol_inF]
        omega

lemma run_inF_captured (m : ℕ) : ∀ (idx : ℕ) (s : EpState) (c : ℤ),
    s.capturedAt = some c →
    (runFrames 0.05 0.05 0.02 30 idx s (List.replicate m inF)).capturedAt =
      some c ∧
    (runFrames 0.05 0.05 0.02 30 idx s (List.replicate m inF)).events = s.events ∧
    (runFrames 0.05 0.05 0.02 30 idx s (List.replicate m inF)).inTolCount =
      s.inTolCount + m ∧
    (runFrames 0.05 0.05 0.02 30 idx s (List.replicate m inF)).tolStreak =
      s.tolStreak + m := by
  induction m with
  | zero => intro idx s c h; simp [runFrames, h]
  | succ m ih =>
      intro idx s c h
      rw [List.replicate_succ]
      simp only [runFrames]
      obtain ⟨h1, h2, h3, h4⟩ :=
        ih (idx + 1) (stepFrame 0.05 0.05 0.02 30 s inF idx) c
          (by rw [stepFrame_capturedAt, h]; simp)
      refine ⟨h1, ?_, ?_, ?_⟩
      · rw [h2, stepFrame_events, frameThr_inF,
          if_neg (by norm_num : ¬ (0 : ℝ) > 0.02)]
        simp [h]
      · rw [h3, stepFrame_inTolCount]
        simp [frameInTol_inF]
        omega
      · rw [h4, stepFrame_tolStreak]
        simp [frameInTol_inF]
        omega

lemma run_inF_capture (m : ℕ) : ∀ (idx : ℕ) (s : EpState),
    s.seenOut = true → s.capturedAt = none → s.tolStreak + 1 ≤ 30 →
    30 ≤ s.tolStreak + m →
    (runFrames 0.05 0.05 0.02 30 idx s (List.replicate m inF)).capturedAt =
      some ((idx : ℤ) - (s.tolStreak : ℤ)) ∧
    (runFrames 0.05 0.05 0.02 30 idx s (List.replicate m inF)).events =
      s.events ++ [⟨(idx : ℤ) - (s.tolStreak : ℤ), EventKind.entered_tol⟩] ∧
    (runFrames 0.05 0.05 0.02 30 idx s (List.replicate m inF)).inTolCount =
      s.inTolCount + m ∧
    (runFrames 0.05 0.05 0.02 30 idx s (List.replicate m inF)).tolStreak =
      s.tolStreak + m := by
  induction m with
  | zero => intro idx s _ _ hstr htot; omega
  | succ m ih =>
      intro idx s hseen hcap hstr htot
      rw [List.replicate_succ]
      simp only [runFrames]
      by_cases hc : (30 : ℕ) ≤ s.tolStreak + 1
      · have hst : s.tolStreak = 29 := by omega
        have c1 : (stepFrame 0.05 0.05 0.02 30 s inF idx).capturedAt =
            some ((idx : ℤ) - 30 + 1) := by
          rw [stepFrame_capturedAt]
          simp [frameInTol_inF, hseen, hcap, hc]
        have c2 : (stepFrame 0.05 0.05 0.02 30 s inF idx).events =
            s.events ++ [⟨(idx : ℤ) - 30 + 1, EventKind.entered_tol⟩] := by
          rw [stepFrame_events, frameThr_inF,
            if_neg (by norm_num : ¬ (0 : ℝ) > 0.02)]
          simp [frameInTol_inF, hseen, hcap, hc]
        have c3 : (stepFrame 0.05 0.05 0.02 30 s inF idx).inTolCount =
            s.inTolCount + 1 := by
          rw [stepFrame_inTolCount]
          simp [frameInTol_inF]
        have c4 : (stepFrame 0.05 0.05 0.02 30 s inF idx).tolStreak =
            s.tolStreak + 1 := by
          rw [stepFrame_tolStreak]
          simp [frameInTol_inF]
        have key : (idx : ℤ) - 30 + 1 = (idx : ℤ) - (s.tolStreak : ℤ) := by
          rw [hst]
          push_cast
          ring
        obtain ⟨g1, g2, g3, g4⟩ :=
          run_inF_captured m (idx + 1) (stepFrame 0.05 0.05 0.02 30 s inF idx)
            ((idx : ℤ) - 30 + 1) c1
        refine ⟨?_, ?_, ?_, ?_⟩
        · rw [g1, key]
        · rw [g2, c2, key]
        · rw [g3, c3]
          omega
        · rw [g4, c4]
          omega
      · have c1 : (stepFrame 0.05 0.05 0.02 30 s inF idx).capturedAt = none := by
          rw [stepFrame_capturedAt]
          simp [hc, hcap]
        have c2 : (stepFrame 0.05 0.05 0.02 30 s inF idx).events = s.events := by
          rw [stepFrame_events, frameThr_inF,
            if_neg (by norm_num : ¬ (0 : ℝ) > 0.02)]
          simp [hc]
        have c3 : (stepFrame 0.05 0.05 0.02 30 s inF idx).inTolCount =
            s.inTolCount + 1 := by
          rw [stepFrame_inTolCount]
          simp [frameInTol_inF]
        have c4 : (stepFrame 0.05 0.05 0.02 30 s inF idx).tolStreak =
            s.tolStreak + 1 := by
          rw [stepFrame_tolStreak]
          simp [frameInTol_inF]
        have c5 : (stepFrame 0.05 0.05 0.02 30 s inF idx).seenOut = true := by
          rw [stepFrame_seenOut]
          simp [frameInTol_inF, hseen]
        obtain ⟨g1, g2, g3, g4⟩ :=
          ih (idx + 1) (stepFrame 0.05 0.05 0.02 30 s inF idx) c5 c1
            (by rw [c4]; omega) (by rw [c4]; omega)
        have key2 : ((idx + 1 : ℕ) : ℤ) -
            (((stepFrame 0.05 0.05 0.02 30 s inF idx).tolStreak : ℕ) : ℤ) =
            (idx : ℤ) - (s.tolStreak : ℤ) := by
          rw [c4]
          push_cast
          ring
        refine ⟨?_, ?_, ?_, ?_⟩
        · rw [g1, key2]
        · rw [g2, c2, key2]
        · rw [g3, c3]
          omega
        · rw [g4, c4]
          omega

lemma episodeMetrics_capturedAt (tolR tolV ts : ℝ) (frames : List Frame) :
    (episodeMetrics tolR tolV ts frames).capturedAt =
      (runFrames tolR tolV ts 30 0 initState frames).capturedAt := rfl

lemma episodeMetrics_events (tolR tolV ts : ℝ) (frames : List Frame) :
    (episodeMetrics tolR tolV ts frames).events =
      (runFrames tolR tolV ts 30 0 initState frames).events := rfl

lemma episodeMetrics_len (tolR tolV ts : ℝ) (frames : List Frame) :
    (episodeMetrics tolR tolV ts frames).len = frames.length := rfl

lemma episodeMetrics_pctInTol (tolR tolV ts : ℝ) (frames : List Frame) :
    (episodeMetrics tolR tolV ts frames).pctInTol =
      if 0 < frames.length then
        (((runFrames tolR tolV ts 30 0 initState frames).inTolCount : ℝ) /
          (frames.length : ℝ))
      else 0 := rfl

lemma episodeMetrics_rewardSum (tolR tolV ts : ℝ) (frames : List Frame) :
    (episodeMetrics tolR tolV ts frames).rewardSum =
      (runFrames tolR tolV ts 30 0 initState frames).rewardSum := rfl

lemma episodeMetrics_fuelSum (tolR tolV ts : ℝ) (frames : List Frame) :
    (episodeMetrics tolR tolV ts frames).fuelSum =
      (runFrames tolR tolV ts 30 0 initState frames).fuelSum := rfl

/-! ## Claim theorems: analytics engine -/

/-- C1: with the debounce window `K = 30`, `capturedAt` is set to
`idx − K + 1` at the step at which the in-tolerance streak reaches `K`
after an out-of-tolerance frame has been seen and while `capturedAt` is
still unset; once set it never changes for the rest of the pass; the
100-frame episode that is out of tolerance on frames 0–49 and in tolerance
on frames 50–99 yields `capturedAt = 50`; and an episode in tolerance on
every frame from frame 0 yields `capturedAt = none` regardless of its
length. -/
theorem capture_debounce :
    (∀ (tolR tolV ts : ℝ) (K : ℕ) (s : EpState) (f : Frame) (idx : ℕ),
      frameInTol tolR tolV f → s.seenOut = true → s.capturedAt = none →
      K ≤ s.tolStreak + 1 →
      (stepFrame tolR tolV ts K s f idx).capturedAt =
        some ((idx : ℤ) - K + 1)) ∧
    (∀ (tolR tolV ts : ℝ) (K : ℕ) (fs : List Frame) (idx : ℕ) (s : EpState)
      (c : ℤ), s.capturedAt = some c →
      (runFrames tolR tolV ts K idx s fs).capturedAt = some c) ∧
    (episodeMetrics 0.05 0.05 0.02
        (List.replicate 50 outF ++ List.replicate 50 inF)).capturedAt =
      some 50 ∧
    (∀ m : ℕ,
      (episodeMetrics 0.05 0.05 0.02 (List.replicate m inF)).capturedAt =
        none) := by
  refine ⟨?_, ?_, ?_, ?_⟩
  · intro tolR tolV ts K s f idx h1 h2 h3 h4
    rw [stepFrame_capturedAt]
    simp [h1, h2, h3, h4]
  · intro tolR tolV ts K fs idx s c h
    exact runFrames_capturedAt_perm tolR tolV ts K fs idx s c h
  · rw [episodeMetrics_capturedAt, runFrames_append]
    simp only [List.length_replicate, Nat.zero_add]
    obtain ⟨o1, _, _, o4, o5⟩ := run_outF 50 0 initState
    obtain ⟨g1, _, _, _⟩ :=
      run_inF_capture 50 50
        (runFrames 0.05 0.05 0.02 30 0 initState (List.replicate 50 outF))
        (by rw [o5]; norm_num)
        (by rw [o1]; rfl)
        (by rw [o4]; norm_num)
        (by rw [o4]; norm_num)
    rw [g1, o4]
    norm_num
  · intro m
    rw [episodeMetrics_capturedAt]
    obtain ⟨h1, _, _, _, _⟩ := run_inF_neverOut m 0 initState rfl
    rw [h1]
    rfl

theorem capture_debounce_witness :
    (runFrames 0.05 0.05 0.02 30 0
      { initState with capturedAt := some 3 } []).capturedAt = some 3 :=
  capture_debounce.2.1 0.05 0.05 0.02 30 [] 0
    { initState with capturedAt := some 3 } 3 rfl

/-- C3: a zero-frame episode yields `len = 0`, `pctInTol = 0`,
`capturedAt = none`, no events and zero reward and fuel sums, for any
tolerances — the pass is total and never fails. -/
theorem empty_episode_metrics (tolR tolV ts : ℝ) :
    (episodeMetrics tolR tolV ts []).len = 0 ∧
    (episodeMetrics tolR tolV ts []).pctInTol = 0 ∧
    (episodeMetrics tolR tolV ts []).capturedAt = none ∧
    (episodeMetrics tolR tolV ts []).events = [] ∧
    (episodeMetrics tolR tolV ts []).rewardSum = 0 ∧
    (episodeMetrics tolR tolV ts []).fuelSum = 0 := by
  refine ⟨rfl, ?_, rfl, rfl, rfl, rfl⟩
  rw [episodeMetrics_pctInTol]
  simp

lemma runFrames_inTolCount (tolR tolV ts : ℝ) (K : ℕ) :
    ∀ (fs : List Frame) (idx : ℕ) (s : EpState),
      (runFrames tolR tolV ts K idx s fs).inTolCount =
        s.inTolCount + fs.countP (fun f => decide (frameInTol tolR tolV f)) := by
  intro fs
  induction fs with
  | nil => intro idx s; simp [runFrames]
  | cons f fs ih =>
      intro idx s
      simp only [runFrames]
      rw [ih, stepFrame_inTolCount, List.countP_cons]
      by_cases h : frameInTol tolR tolV f
      · simp [h]
        omega
      · simp [h]

/-- C4: `pctInTol` is the number of frames classified in tolerance divided
by the frame count (0 for an empty episode), hence lies in `[0, 1]`; for an
episode with 40 in-tolerance frames out of 100 it is exactly `0.4`. -/
theorem pct_in_tolerance_ratio :
    (∀ (tolR tolV ts : ℝ) (frames : List Frame),
      (episodeMetrics tolR tolV ts frames).pctInTol =
        if frames.length = 0 then 0
        else ((frames.countP (fun f => decide (frameInTol tolR tolV f)) : ℝ) /
          (frames.length : ℝ))) ∧
    (∀ (tolR tolV ts : ℝ) (frames : List Frame),
      0 ≤ (episodeMetrics tolR tolV ts frames).pctInTol ∧
      (episodeMetrics tolR tolV ts frames).pctInTol ≤ 1) ∧
    (episodeMetrics 0.05 0.05 0.02
      (List.replicate 40 inF ++ List.replicate 60 outF)).pctInTol = 0.4 := by
  have hform : ∀ (tolR tolV ts : ℝ) (frames : List Frame),
      (episodeMetrics tolR tolV ts frames).pctInTol =
        if frames.length = 0 then 0
        else ((frames.countP (fun f => decide (frameInTol tolR tolV f)) : ℝ) /
          (frames.length : ℝ)) := by
    intro tolR tolV ts frames
    rw [episodeMetrics_pctInTol, runFrames_inTolCount]
    rcases Nat.eq_zero_or_pos frames.length with h | h
    · simp [h]
    · rw [if_pos h, if_neg (by omega)]
      have : initState.inTolCount = 0 := rfl
      rw [this, Nat.zero_add]
  refine ⟨hform, ?_, ?_⟩
  · intro tolR tolV ts frames
    rw [hform]
    rcases Nat.eq_zero_or_pos frames.length with h | h
    · simp [h]
    · rw [if_neg (by omega)]
      have hc : frames.countP (fun f => decide (frameInTol tolR tolV f)) ≤
          frames.length := List.countP_le_length _
      have hl : (0 : ℝ) < (frames.length : ℝ) := by
        exact_mod_cast h
      constructor
      · positivity
      · rw [div_le_one hl]
        exact_mod_cast hc
  · rw [hform]
    have hcount : (List.replicate 40 inF ++ List.replicate 60 outF).countP
        (fun f => decide (frameInTol 0.05 0.05 f)) = 40 := by
      rw [List.countP_append]
      have h1 : (List.replicate 40 inF).countP
          (fun f => decide (frameInTol 0.05 0.05 f)) = 40 := by
        rw [List.countP_replicate]
        simp [frameInTol_inF]
      have h2 : (List.replicate 60 outF).countP
          (fun f => decide (frameInTol 0.05 0.05 f)) = 0 := by
        rw [List.countP_replicate]
        simp [frameInTol_outF]
      rw [h1, h2]
    rw [hcount]
    simp only [List.length_append, List.length_replicate]
    norm_num

/-- A frame with a `(0.01, 0, 0)` thrust, below the default spike
threshold. -/
noncomputable def lowThrustF : Frame :=
  { r := (0, 0, 0), v := (0, 0, 0), thrust := some (0.01, 0, 0), reward := none,
    pos_err := some 0, v_tan_err := some 0 }

lemma frameThr_lowThrustF : frameThr lowThrustF = 0.01 := by
  simp only [frameThr, lowThrustF]
  exact hypot3_single 0.01 (by norm_num)

lemma frameInTol_lowThrustF : frameInTol 0.05 0.05 lowThrustF := by
  simp only [frameInTol, framePosErr, frameVtanErr, lowThrustF, Option.getD_some]
  norm_num

/-- C5: a thrust event at a frame's index is appended exactly when the
Euclidean magnitude of its thrust is strictly greater than the spike
threshold; a missing thrust is treated as magnitude 0 and adds nothing to
`fuelSum`; a missing reward adds nothing to `rewardSum`; a frame with
thrust `(0.03, 0, 0)` against threshold `0.02` produces a thrust event and
one with `(0.01, 0, 0)` does not. -/
theorem thrust_event_iff :
    (∀ (tolR tolV ts : ℝ) (K : ℕ) (s : EpState) (f : Frame) (idx : ℕ),
      (Event.mk (idx : ℤ) EventKind.thrust ∈
          (stepFrame tolR tolV ts K s f idx).events) ↔
        (frameThr f > ts ∨
          Event.mk (idx : ℤ) EventKind.thrust ∈ s.events)) ∧
    (∀ f : Frame, f.thrust = none → frameThr f = 0) ∧
    (∀ (tolR tolV ts : ℝ) (K : ℕ) (s : EpState) (f : Frame) (idx : ℕ),
      f.thrust = none →
      (stepFrame tolR tolV ts K s f idx).fuelSum = s.fuelSum) ∧
    (∀ (tolR tolV ts : ℝ) (K : ℕ) (s : EpState) (f : Frame) (idx : ℕ),
      f.reward = none →
      (stepFrame tolR tolV ts K s f idx).rewardSum = s.rewardSum) ∧
    (episodeMetrics 0.05 0.05 0.02 [inThrustF]).events =
      [⟨0, EventKind.thrust⟩] ∧
    (episodeMetrics 0.05 0.05 0.02 [lowThrustF]).events = [] := by
  refine ⟨?_, ?_, ?_, ?_, ?_, ?_⟩
  · intro tolR tolV ts K s f idx
    rw [stepFrame_events]
    by_cases ht : frameThr f > ts <;>
      by_cases hcap : frameInTol tolR tolV f ∧ s.seenOut = true ∧
        s.capturedAt = none ∧ K ≤ s.tolStreak + 1 <;>
      simp [ht, hcap]
  · intro f h
    rw [frameThr, h]
  · intro tolR tolV ts K s f idx h
    rw [stepFrame_fuelSum, frameThr, h]
    exact add_zero _
  · intro tolR tolV ts K s f idx h
    rw [stepFrame_rewardSum, h, Option.getD_none, add_zero]
  · rw [episodeMetrics_events]
    have u : runFrames 0.05 0.05 0.02 30 0 initState [inThrustF] =
        stepFrame 0.05 0.05 0.02 30 initState inThrustF 0 := rfl
    rw [u, stepFrame_events, frameThr_inThrustF,
      if_pos (by norm_num : (0.03 : ℝ) > 0.02)]
    have hseen : initState.seenOut = false := rfl
    simp [hseen, initState]
  · rw [episodeMetrics_events]
    have u : runFrames 0.05 0.05 0.02 30 0 initState [lowThrustF] =
        stepFrame 0.05 0.05 0.02 30 initState lowThrustF 0 := rfl
    rw [u, stepFrame_events, frameThr_lowThrustF,
      if_neg (by norm_num : ¬ (0.01 : ℝ) > 0.02)]
    have hseen : initState.seenOut = false := rfl
    simp [hseen, initState]

theorem thrust_event_iff_witness :
    frameThr ⟨(0, 0, 0), (0, 0, 0), none, none, none, none⟩ = 0 :=
  thrust_event_iff.2.1 ⟨(0, 0, 0), (0, 0, 0), none, none, none, none⟩ rfl

/-- A frame strictly inside the target radius (`|r| = 1/2 < 1`), with its
tangential-velocity error precomputed as 0. -/
noncomputable def insideF : Frame :=
  { r := (1/2, 0, 0), v := (0, 0, 0), thrust := none, reward := none,
    pos_err := none, v_tan_err := some 0 }

/-- C10: the tolerance classification is one-sided in position — the
position error `|r| − 1.0` is compared to the tolerance without an absolute
value, so any frame whose radial distance is below the target radius is
classified in tolerance whenever its tangential-velocity error is within
tolerance, and such a frame increments both the in-tolerance count and the
capture streak. -/
theorem below_target_in_tolerance (f : Frame) (tolR tolV : ℝ)
    (hnone : f.pos_err = none) (hbelow : hypot3 f.r < 1)
    (htolR : 0 ≤ tolR) (hvt : |frameVtanErr f| ≤ tolV) :
    frameInTol tolR tolV f ∧
    ∀ (ts : ℝ) (K : ℕ) (s : EpState) (idx : ℕ),
      (stepFrame tolR tolV ts K s f idx).inTolCount = s.inTolCount + 1 ∧
      (stepFrame tolR tolV ts K s f idx).tolStreak = s.tolStreak + 1 := by
  have hpos : framePosErr f ≤ tolR := by
    rw [framePosErr, hnone, Option.getD_none]
    have h10 : (1.0 : ℝ) = 1 := by norm_num
    rw [h10]
    linarith
  have hit : frameInTol tolR tolV f := ⟨hpos, hvt⟩
  refine ⟨hit, fun ts K s idx => ⟨?_, ?_⟩⟩
  · rw [stepFrame_inTolCount, if_pos hit]
  · rw [stepFrame_tolStreak, if_pos hit]

theorem below_target_in_tolerance_witness :
    frameInTol 0.05 0.05 insideF ∧
    (stepFrame 0.05 0.05 0.02 30 initState insideF 0).inTolCount =
      initState.inTolCount + 1 := by
  have hr : hypot3 insideF.r < 1 := by
    rw [show insideF.r = ((1/2 : ℝ), (0 : ℝ), (0 : ℝ)) from rfl,
      hypot3_single (1/2) (by norm_num)]
    norm_num
  have hvt : |frameVtanErr insideF| ≤ 0.05 := by
    rw [show frameVtanErr insideF = 0 from rfl]
    norm_num
  have h := below_target_in_tolerance insideF 0.05 0.05 rfl hr (by norm_num) hvt
  exact ⟨h.1, (h.2 0.02 30 initState 0).1⟩

/-! ### Event ordering (C2) -/

/-- The frame indices of the thrust events of an event list, in order. -/
def thrustTs (l : List Event) : List ℤ :=
  (l.filter fun ev => decide (ev.type = EventKind.thrust)).map Event.t

/-- How many `entered_tol` events an event list holds. -/
def tolCount (l : List Event) : ℕ :=
  l.countP fun ev => decide (ev.type = EventKind.entered_tol)

/-- The ordering asserted by the specification: events sorted in ascending
order of frame index. -/
def eventsAscending (l : List Event) : Prop :=
  l.Pairwise fun a b => a.t ≤ b.t

lemma thrustTs_append (l1 l2 : List Event) :
    thrustTs (l1 ++ l2) = thrustTs l1 ++ thrustTs l2 := by
  simp [thrustTs]

lemma tolCount_append (l1 l2 : List Event) :
    tolCount (l1 ++ l2) = tolCount l1 + tolCount l2 := by
  simp [tolCount, List.countP_append]

lemma runFrames_events_inv (tolR tolV ts : ℝ) (K : ℕ) :
    ∀ (fs : List Frame) (idx : ℕ) (s : EpState),
      (∀ t ∈ thrustTs s.events, t < (idx : ℤ)) →
      (thrustTs s.events).Pairwise (· < ·) →
      tolCount s.events ≤ 1 →
      (s.capturedAt = none → tolCount s.events = 0) →
      (∀ t ∈ thrustTs (runFrames tolR tolV ts K idx s fs).events,
        t < ((idx + fs.length : ℕ) : ℤ)) ∧
      (thrustTs (runFrames tolR tolV ts K idx s fs).events).Pairwise (· < ·) ∧
      tolCount (runFrames tolR tolV ts K idx s fs).events ≤ 1 ∧
      ((runFrames tolR tolV ts K idx s fs).capturedAt = none →
        tolCount (runFrames tolR tolV ts K idx s fs).events = 0) := by
  intro fs
  induction fs with
  | nil =>
      intro idx s hA hB hC hD
      simpa [runFrames] using ⟨hA, hB, hC, hD⟩
  | cons f fs ih =>
      intro idx s hA hB hC hD
      simp only [runFrames]
      have hev := stepFrame_events tolR tolV ts K s f idx
      have hcapv := stepFrame_capturedAt tolR tolV ts K s f idx
      -- the thrust-index list after one step
      have hts : thrustTs (stepFrame tolR tolV ts K s f idx).events =
          thrustTs s.events ++ (if frameThr f > ts then [(idx : ℤ)] else []) := by
        rw [hev, thrustTs_append]
        by_cases ht : frameThr f > ts <;>
          by_cases hcap : frameInTol tolR tolV f ∧ s.seenOut = true ∧
            s.capturedAt = none ∧ K ≤ s.tolStreak + 1 <;>
          simp [ht, hcap, thrustTs]
      have htol : tolCount (stepFrame tolR tolV ts K s f idx).events =
          tolCount s.events +
            (if frameInTol tolR tolV f ∧ s.seenOut = true ∧ s.capturedAt = none ∧
                K ≤ s.tolStreak + 1 then 1 else 0) := by
        rw [hev, tolCount_append]
        by_cases ht : frameThr f > ts <;>
          by_cases hcap : frameInTol tolR tolV f ∧ s.seenOut = true ∧
            s.capturedAt = none ∧ K ≤ s.tolStreak + 1 <;>
          simp [ht, hcap, tolCount, List.countP_append]
      have hA1 : ∀ t ∈ thrustTs (stepFrame tolR tolV ts K s f idx).events,
          t < ((idx + 1 : ℕ) : ℤ) := by
        intro t htmem
        rw [hts] at htmem
        rcases List.mem_append.mp htmem with h | h
        · have := hA t h
          push_cast
          omega
        · by_cases htthr : frameThr f > ts
          · rw [if_pos htthr] at h
            rcases List.mem_singleton.mp h with rfl
            push_cast
            omega
          · rw [if_neg htthr] at h
            exact absurd h (List.not_mem_nil _)
      have hB1 : (thrustTs (stepFrame tolR tolV ts K s f idx).events).Pairwise
          (· < ·) := by
        rw [hts]
        rw [List.pairwise_append]
        refine ⟨hB, ?_, ?_⟩
        · by_cases htthr : frameThr f > ts <;> simp [htthr]
        · intro a ha b hb
          by_cases htthr : frameThr f > ts
          · rw [if_pos htthr] at hb
            rcases List.mem_singleton.mp hb with rfl
            exact hA a ha
          · rw [if_neg htthr] at hb
            exact absurd hb (List.not_mem_nil _)
      have hC1 : tolCount (stepFrame tolR tolV ts K s f idx).events ≤ 1 := by
        rw [htol]
        by_cases hcap : frameInTol tolR tolV f ∧ s.seenOut = true ∧
            s.capturedAt = none ∧ K ≤ s.tolStreak + 1
        · rw [if_pos hcap, hD hcap.2.2.1]
        · rw [if_neg hcap]
          omega
      have hD1 : (stepFrame tolR tolV ts K s f idx).capturedAt = none →
          tolCount (stepFrame tolR tolV ts K s f idx).events = 0 := by
        intro hnone
        rw [hcapv] at hnone
        by_cases hcap : frameInTol tolR tolV f ∧ s.seenOut = true ∧
            s.capturedAt = none ∧ K ≤ s.tolStreak + 1
        · rw [if_pos hcap] at hnone
          exact absurd hnone (by simp)
        · rw [if_neg hcap] at hnone
          rw [htol, if_neg hcap, hD hnone]
      have hres := ih (idx + 1) (stepFrame tolR tolV ts K s f idx) hA1 hB1 hC1 hD1
      refine ⟨?_, hres.2.1, hres.2.2.1, hres.2.2.2⟩
      intro t htmem
      have := hres.1 t htmem
      have hlen : ((idx + 1 : ℕ) + fs.length : ℕ) = (idx + (fs.length + 1) : ℕ) := by
        omega
      rw [hlen] at this
      simpa using this

/-- C2 (amended): within an episode's event list the thrust events appear
in strictly ascending frame-index order, and at most one `entered_tol`
event is present; the `entered_tol` event however is appended at its
detection frame while carrying the backdated index `capturedAt`, so the
full list need not be ascending. -/
theorem events_order (tolR tolV ts : ℝ) (frames : List Frame) :
    (thrustTs (episodeMetrics tolR tolV ts frames).events).Pairwise (· < ·) ∧
    tolCount (episodeMetrics tolR tolV ts frames).events ≤ 1 := by
  rw [episodeMetrics_events]
  have hinit : initState.events = [] := rfl
  have h := runFrames_events_inv tolR tolV ts 30 frames 0 initState
    (by rw [hinit]; intro t ht; exact absurd ht (by simp [thrustTs]))
    (by rw [hinit]; simp [thrustTs])
    (by rw [hinit]; simp [tolCount])
    (by intro _; rw [hinit]; simp [tolCount])
  exact ⟨h.2.1, h.2.2.1⟩

/-- The counterexample episode: one out-of-tolerance frame, two
in-tolerance frames (the second carrying a thrust spike at index 2), then
28 more in-tolerance frames so that the capture fires at index 30 with
backdated index 1. -/
noncomputable def cexEpisode : List Frame :=
  outF :: inF :: inThrustF :: List.replicate 28 inF

noncomputable def cexS1 : EpState := stepFrame 0.05 0.05 0.02 30 initState outF 0

noncomputable def cexS2 : EpState := stepFrame 0.05 0.05 0.02 30 cexS1 inF 1

noncomputable def cexS3 : EpState := stepFrame 0.05 0.05 0.02 30 cexS2 inThrustF 2

lemma cexS1_fields :
    cexS1.capturedAt = none ∧ cexS1.events = [] ∧ cexS1.tolStreak = 0 ∧
    cexS1.seenOut = true := by
  refine ⟨?_, ?_, ?_, ?_⟩
  · rw [cexS1, stepFrame_capturedAt]
    simp [frameInTol_outF, initState]
  · rw [cexS1, stepFrame_events, frameThr_outF,
      if_neg (by norm_num : ¬ (0 : ℝ) > 0.02)]
    simp [frameInTol_outF, initState]
  · rw [cexS1, stepFrame_tolStreak]
    simp [frameInTol_outF]
  · rw [cexS1, stepFrame_seenOut]
    simp [frameInTol_outF]

lemma cexS2_fields :
    cexS2.capturedAt = none ∧ cexS2.events = [] ∧ cexS2.tolStreak = 1 ∧
    cexS2.seenOut = true := by
  obtain ⟨h1, h2, h3, h4⟩ := cexS1_fields
  refine ⟨?_, ?_, ?_, ?_⟩
  · rw [cexS2, stepFrame_capturedAt]
    simp [h1, h3]
  · rw [cexS2, stepFrame_events, frameThr_inF,
      if_neg (by norm_num : ¬ (0 : ℝ) > 0.02)]
    simp [h2, h3]
  · rw [cexS2, stepFrame_tolStreak]
    simp [frameInTol_inF, h3]
  · rw [cexS2, stepFrame_seenOut]
    simp [frameInTol_inF, h4]

lemma cexS3_fields :
    cexS3.capturedAt = none ∧ cexS3.events = [⟨2, EventKind.thrust⟩] ∧
    cexS3.tolStreak = 2 ∧ cexS3.seenOut = true := by
  obtain ⟨h1, h2, h3, h4⟩ := cexS2_fields
  refine ⟨?_, ?_, ?_, ?_⟩
  · rw [cexS3, stepFrame_capturedAt]
    simp [h1, h3]
  · rw [cexS3, stepFrame_events, frameThr_inThrustF,
      if_pos (by norm_num : (0.03 : ℝ) > 0.02)]
    simp [h2, h3]
  · rw [cexS3, stepFrame_tolStreak]
    simp [frameInTol_inThrustF, h3]
  · rw [cexS3, stepFrame_seenOut]
    simp [frameInTol_inThrustF, h4]

lemma cex_events :
    (episodeMetrics 0.05 0.05 0.02 cexEpisode).events =
      [⟨2, EventKind.thrust⟩, ⟨1, EventKind.entered_tol⟩] := by
  obtain ⟨h1, h2, h3, h4⟩ := cexS3_fields
  rw [episodeMetrics_events]
  have u : runFrames 0.05 0.05 0.02 30 0 initState cexEpisode =
      runFrames 0.05 0.05 0.02 30 3 cexS3 (List.replicate 28 inF) := rfl
  rw [u]
  obtain ⟨_, g2, _, _⟩ :=
    run_inF_capture 28 3 cexS3 h4 h1 (by rw [h3]; omega) (by rw [h3])
  rw [g2, h2, h3]
  norm_num

/-- C2 counterexample: on `cexEpisode` the computed event list is
`[{t := 2, thrust}, {t := 1, entered_tol}]`, which is not sorted in
ascending order of frame index — refuting the claimed ordering. -/
theorem events_not_ascending :
    (episodeMetrics 0.05 0.05 0.02 cexEpisode).events =
      [⟨2, EventKind.thrust⟩, ⟨1, EventKind.entered_tol⟩] ∧
    ¬ eventsAscending (episodeMetrics 0.05 0.05 0.02 cexEpisode).events := by
  refine ⟨cex_events, ?_⟩
  rw [cex_events]
  intro h
  rw [eventsAscending] at h
  have := List.rel_of_pairwise_cons h (List.mem_singleton.mpr rfl)
  norm_num at this

end Orbital
